import Mathlib

/-!
Verification development for the footprint-tools detection pipeline.

The definitions below are a shallow embedding of the CLI driver sources
(`footprint_tools/cli/detect.py`, `footprint_tools/cli/learn_dm.py`,
`footprint_tools/cli/meta_profile.py`, `footprint_tools/bed.py`).
Numpy arrays are modelled as Lean lists, numpy floats as real numbers
(rationals where exact decidable arithmetic suffices), Python `None` as
`Option.none`, and Python exceptions as `Except` values.  Components of
the repository that are only called by these drivers but whose own code
is not part of the excerpt (the segmentation routine, the empirical FDR
estimator, the dispersion model, the `footprint_tools.genomic_interval`
constructor) are modelled from the design document and are marked as
such in their doc comments.
-/

namespace FootprintTools

/-- `genome_tools.genomic_interval` as consumed by the CLI drivers: a plain
half-open chromosomal range record (an external collaborator type; the
drivers only ever read `chrom`, `start` and `end`, the latter spelt `stop`
here because `end` is reserved in Lean). -/
structure gt_genomic_interval where
  chrom : String
  start : ℤ
  stop : ℤ
deriving DecidableEq

/-- The strand-combination rule `v_plus[1:] + v_minus[:-1]`: the numpy
element-wise sum of the plus-strand vector shifted left by one base against
the minus-strand vector with its final entry removed. -/
def strand_combine (v_plus v_minus : List ℝ) : List ℝ :=
  List.zipWith (· + ·) (v_plus.drop 1) v_minus.dropLast

/-- detect.py, `deviation_stats.__getitem__`: `obs = obs['+'][1:] + obs['-'][:-1]`. -/
def devstats_obs_combine (obs_plus obs_minus : List ℝ) : List ℝ :=
  List.zipWith (· + ·) (obs_plus.drop 1) obs_minus.dropLast

/-- detect.py, `deviation_stats.__getitem__`: `exp = exp['+'][1:] + exp['-'][:-1]`. -/
def devstats_exp_combine (exp_plus exp_minus : List ℝ) : List ℝ :=
  List.zipWith (· + ·) (exp_plus.drop 1) exp_minus.dropLast

/-- learn_dm.py, `expected_counts.__getitem__`: `obs = obs['+'][1:] + obs['-'][:-1]`. -/
def learn_dm_obs_combine (obs_plus obs_minus : List ℝ) : List ℝ :=
  List.zipWith (· + ·) (obs_plus.drop 1) obs_minus.dropLast

/-- learn_dm.py, `expected_counts.__getitem__`: `exp = exp['+'][1:] + exp['-'][:-1]`. -/
def learn_dm_exp_combine (exp_plus exp_minus : List ℝ) : List ℝ :=
  List.zipWith (· + ·) (exp_plus.drop 1) exp_minus.dropLast

/-- Python bitwise complement `~n` on an integer. -/
def py_invert (n : ℤ) : ℤ := -n - 1

/-- Python implicit bool-to-int conversion (`bool` is a subclass of `int`). -/
def py_bool_to_int (b : Bool) : ℤ := if b then 1 else 0

/-- detect.py, `run`: the `remove_qcfail` entry of `proc_kwargs` is
`~keep_qcfail`. -/
def detect_remove_qcfail (keep_qcfail : Bool) : ℤ :=
  py_invert (py_bool_to_int keep_qcfail)

/-- learn_dm.py, `run`: the `remove_qcfail` entry of `proc_kwargs` is
`~keep_qcfail`. -/
def learn_dm_remove_qcfail (keep_qcfail : Bool) : ℤ :=
  py_invert (py_bool_to_int keep_qcfail)

/-- `-np.log`, idealized over the reals. -/
noncomputable def neglog (p : ℝ) : ℝ := -Real.log p

/-- `np.column_stack((a, b, c, d, e))` for five equal-length vectors: the
list of five-entry rows. -/
def column_stack5 : List ℝ → List ℝ → List ℝ → List ℝ → List ℝ → List (List ℝ)
  | a :: as, b :: bs, c :: cs, d :: ds, e :: es =>
      [a, b, c, d, e] :: column_stack5 as bs cs ds es
  | _, _, _, _, _ => []

/-- `np.column_stack((a, b))` for two equal-length vectors. -/
def column_stack2 : List ℝ → List ℝ → List (List ℝ)
  | a :: as, b :: bs => [a, b] :: column_stack2 as bs
  | _, _ => []

/-- The warning emitted by `deviation_stats.__getitem__` on a per-interval
failure: it names the failing interval coordinates
(`Error computing stats for chrom:start-end`). -/
def devstats_warning (interval : gt_genomic_interval) : String :=
  "Error computing stats for " ++ interval.chrom ++ ":"
    ++ toString interval.start ++ "-" ++ toString interval.stop

/-- detect.py, `deviation_stats.__getitem__`, the `try/except/finally`
block guarded by `if self.dm`: the statistical computation (p-values,
window p-values, null resampling and empirical FDR) is a fallible step,
modelled as an `Except` value.  On success the stats matrix stacks
`(exp, obs, -log pvals, -log win_pvals, efdr)`; on any exception a warning
naming the interval coordinates is logged and the p-value vectors are
replaced by `np.ones(n)` before the `finally` clause stacks the columns.
The result is an ordinary value in both cases: the exception is not
re-raised. -/
noncomputable def devstats_stat_block (n : ℕ) (expc obsc : List ℝ)
    (interval : gt_genomic_interval)
    (res : Except String (List ℝ × List ℝ × List ℝ)) :
    List String × List (List ℝ) :=
  match res with
  | Except.ok (pvals, winpvals, efdr) =>
      ([], column_stack5 expc obsc (pvals.map neglog) (winpvals.map neglog) efdr)
  | Except.error _ =>
      ([devstats_warning interval],
        column_stack5 expc obsc ((List.replicate n (1 : ℝ)).map neglog)
          ((List.replicate n (1 : ℝ)).map neglog) (List.replicate n (1 : ℝ)))

/-- Python `'\t'.join(strs)`. -/
def tab_join : List String → String
  | [] => ""
  | [x] => x
  | x :: xs => x ++ "\t" ++ tab_join xs

/-- detect.py, `write_stats_to_output`: one output line per row `i` of the
stats matrix, `chrom TAB start+i TAB start+i+1 TAB` followed by the
tab-joined formatted row values; rows are visited by `i` ascending.  The
per-value float formatting (`'{:0.4f}'.format`) is abstracted as `fmt`. -/
def write_stats_to_output (fmt : ℝ → String)
    (interval : gt_genomic_interval) (stats : List (List ℝ)) : List String :=
  (List.range stats.length).map fun (i : ℕ) =>
    interval.chrom ++ "\t" ++ toString (interval.start + (i : ℤ)) ++ "\t"
      ++ toString (interval.start + (i : ℤ) + 1) ++ "\t"
      ++ tab_join ((stats.getD i []).map fmt)

/-- detect.py, `run`, main loop: per-nucleotide stats records are written
interval by interval, in the order the `(interval, stats)` pairs arrive. -/
def write_all_stats (fmt : ℝ → String)
    (items : List (gt_genomic_interval × List (List ℝ))) : List String :=
  items.flatMap fun p => write_stats_to_output fmt p.1 p.2

/-- A BAM record as far as QC-fail filtering is concerned. -/
structure sam_read where
  qcfail : Bool
deriving DecidableEq

/-- Modelled from the spec: `cutcounts.bamfile`, whose code is outside the
excerpted sources, filters out QC-failed reads whenever its `remove_qcfail`
option is truthy (Python truthiness of an `int` is being nonzero); the
configuration surface lists duplicate/QC-fail filtering as a boolean-like
switch. -/
def bamfile_filter_reads (remove_qcfail : ℤ) (reads : List sam_read) : List sam_read :=
  if remove_qcfail ≠ 0 then reads.filter (fun r => !r.qcfail) else reads

/-- The effect of opening an external resource handle: `some k` records a
handle that has been assigned `k` times over the object's lifetime (`none`
is Python `None`, the not-yet-opened state). -/
def open_handle : Option ℕ → Option ℕ
  | none => some 1
  | some k => some (k + 1)

/-- The external-resource handle fields of a `deviation_stats` object
(detect.py). -/
structure deviation_stats_handles where
  counts_reader : Option ℕ
  fasta_reader : Option ℕ
  count_predictor : Option ℕ
deriving DecidableEq

/-- detect.py, `deviation_stats.__init__`: all three handles are set to
`None`; nothing is opened at construction time. -/
def deviation_stats_init : deviation_stats_handles := ⟨none, none, none⟩

/-- detect.py, `deviation_stats.__getitem__`, handle-state effect:
`if not self.counts_reader:` open the counts reader, the fasta reader and
the count predictor; otherwise reuse the existing handles unchanged. -/
def deviation_stats_getitem (s : deviation_stats_handles) : deviation_stats_handles :=
  if s.counts_reader = none then
    ⟨open_handle s.counts_reader, open_handle s.fasta_reader,
      open_handle s.count_predictor⟩
  else s

/-- The external-resource handle fields of an `expected_counts` object
(learn_dm.py). -/
structure expected_counts_handles where
  counts_reader : Option ℕ
  fasta_reader : Option ℕ
  count_predictor : Option ℕ
deriving DecidableEq

/-- learn_dm.py, `expected_counts.__init__`: all three handles are `None`. -/
def expected_counts_init : expected_counts_handles := ⟨none, none, none⟩

/-- learn_dm.py, `expected_counts.__getitem__`, handle-state effect: same
lazy pattern as `deviation_stats`. -/
def expected_counts_getitem (s : expected_counts_handles) : expected_counts_handles :=
  if s.counts_reader = none then
    ⟨open_handle s.counts_reader, open_handle s.fasta_reader,
      open_handle s.count_predictor⟩
  else s

/-- The external-resource handle fields of a `profile_loader` object
(meta_profile.py): it declares `bam_reader` and `fasta_reader`. -/
structure profile_loader_handles where
  bam_reader : Option ℕ
  fasta_reader : Option ℕ
deriving DecidableEq

/-- meta_profile.py, `profile_loader.__init__`: both handle fields are
`None`. -/
def profile_loader_init : profile_loader_handles := ⟨none, none⟩

/-- meta_profile.py, `profile_loader.__getitem__`, handle-state effect:
`if not self.bam_reader:` opens only the counts reader; the `fasta_reader`
field is never assigned by `__getitem__`. -/
def profile_loader_getitem (s : profile_loader_handles) : profile_loader_handles :=
  if s.bam_reader = none then ⟨open_handle s.bam_reader, s.fasta_reader⟩ else s

/-- A `footprint_tools.genomic_interval` as produced by the bed.py parsers. -/
structure ft_genomic_interval where
  chrom : String
  start : ℤ
  stop : ℤ
  name : Option String
  score : Option ℚ
  strand : Option String
deriving DecidableEq

/-- Modelled from the spec: the `footprint_tools.genomic_interval`
constructor invoked by `bed.py` is not among the excerpted sources; the
design document declares the data-model invariant `start < end` for
GenomicInterval values created by the file parsers, so construction
succeeds exactly when the invariant holds. -/
def mk_genomic_interval (chrom : String) (start stop : ℤ) (name : Option String)
    (score : Option ℚ) (strand : Option String) : Option ft_genomic_interval :=
  if start < stop then some ⟨chrom, start, stop, name, score, strand⟩ else none

/-- Tokenizer worker: accumulate the current (reversed) token while
scanning the character list, emitting a token at each whitespace boundary. -/
def split_ws_aux : List Char → List Char → List (List Char)
  | [], acc => if acc = [] then [] else [acc.reverse]
  | c :: cs, acc =>
    if c.isWhitespace then
      if acc = [] then split_ws_aux cs [] else acc.reverse :: split_ws_aux cs []
    else split_ws_aux cs (c :: acc)

/-- Python `line.strip().split()`: whitespace tokenization dropping empty
tokens. -/
def py_split (line : String) : List String :=
  (split_ws_aux line.data []).map List.asString

/-- bed.py, `bed3_iterator`, one line: `chrom = fields[0]`,
`start = int(fields[1])`, `end = int(fields[2])`; Python `int(...)` (which
raises on malformed input, rejecting the line) is abstracted as the
fallible `int_parse`. -/
def bed3_line (int_parse : String → Option ℤ) (line : String) :
    Option ft_genomic_interval :=
  match py_split line with
  | chrom :: f1 :: f2 :: _ =>
    match int_parse f1, int_parse f2 with
    | some s, some e => mk_genomic_interval chrom s e none none none
    | _, _ => none
  | _ => none

/-- bed.py, `bed5_iterator`, one line: additionally `name = fields[3]` and
`score = float(fields[4])`, the latter abstracted as `float_parse`. -/
def bed5_line (int_parse : String → Option ℤ) (float_parse : String → Option ℚ)
    (line : String) : Option ft_genomic_interval :=
  match py_split line with
  | chrom :: f1 :: f2 :: nm :: f4 :: _ =>
    match int_parse f1, int_parse f2, float_parse f4 with
    | some s, some e, some sc => mk_genomic_interval chrom s e (some nm) (some sc) none
    | _, _, _ => none
  | _ => none

/-- bed.py, `bed6_iterator`, one line: additionally `strand = fields[5]`. -/
def bed6_line (int_parse : String → Option ℤ) (float_parse : String → Option ℚ)
    (line : String) : Option ft_genomic_interval :=
  match py_split line with
  | chrom :: f1 :: f2 :: nm :: f4 :: st :: _ =>
    match int_parse f1, int_parse f2, float_parse f4 with
    | some s, some e, some sc =>
      mk_genomic_interval chrom s e (some nm) (some sc) (some st)
    | _, _, _ => none
  | _ => none

/-- Does position `i` pass the segmentation threshold: `scores[i] ≥ θ`
(out-of-range positions never qualify). -/
def qualifies (scores : List ℚ) (θ : ℚ) (i : ℕ) : Bool :=
  if h : i < scores.length then decide (θ ≤ scores.get ⟨i, h⟩) else false

/-- A maximal contiguous run `[s, e)` of qualifying positions: nonempty,
inside the score vector, every position qualifies, and it can be extended
neither to the left nor to the right. -/
def is_maximal_run (scores : List ℚ) (θ : ℚ) (s e : ℕ) : Bool :=
  decide (s < e) && decide (e ≤ scores.length)
    && (List.range (e - s)).all (fun k => qualifies scores θ (s + k))
    && (decide (s = 0) || !qualifies scores θ (s - 1))
    && (decide (e = scores.length) || !qualifies scores θ e)

/-- Modelled from the spec: `footprint_tools.stats.utils.segment`, whose
code is outside the excerpted sources, identifies the maximal contiguous
runs where `score ≥ threshold` with length at least `min_run_length`
(shorter runs are dropped entirely), returned as half-open sorted index
pairs. -/
def segment (scores : List ℚ) (θ : ℚ) (min_len : ℕ) : List (ℕ × ℕ) :=
  (List.range (scores.length + 1)).flatMap fun s =>
    ((List.range (scores.length + 1)).filter
      (fun e => is_maximal_run scores θ s e && decide (min_len ≤ e - s))).map
      (fun e => (s, e))

/-- detect.py, `run`, footprint loop for one interval and one threshold:
`utils.segment(1.0 - stats[:, -1], 1.0 - thresh, 3)` with each `(s, e)`
printed as the BED record `(chrom, interval.start + s, interval.start + e)`. -/
def write_footprints_for_interval (chrom : String) (start : ℤ)
    (fdr_col : List ℚ) (t : ℚ) : List (String × ℤ × ℤ) :=
  (segment (fdr_col.map (fun x => 1 - x)) (1 - t) 3).map
    (fun p => (chrom, start + (p.1 : ℤ), start + (p.2 : ℤ)))

/-- detect.py, `run`: the stats matrix produced per interval; with a
dispersion model it stacks `(exp, obs, -log p, -log win_p, fdr)`, with
`dm = None` it stacks only `(exp, obs)`. -/
noncomputable def devstats_stats_matrix {α : Type} (dm : Option α)
    (expc obsc pvals winpvals efdr : List ℝ) : List (List ℝ) :=
  match dm with
  | some _ => column_stack5 expc obsc (pvals.map neglog) (winpvals.map neglog) efdr
  | none => column_stack2 expc obsc

/-- detect.py, `run`: when no dispersion model file is supplied, `dm = None`
and the requested footprint FDR thresholds are cleared
(`write_footprints = []`). -/
def run_effective_write_footprints (dispersion_model_file : Option String)
    (requested : List ℚ) : List ℚ :=
  match dispersion_model_file with
  | some _ => requested
  | none => []

/-- detect.py, `run`: one footprint output file per requested threshold,
named from the `prefix.fdr<t>.bed` template, opened only when the
threshold list is nonempty. -/
def run_output_bed_filehandles (file_stem : String) (thresholds : List ℚ) :
    List (ℚ × String) :=
  if 0 < thresholds.length then
    thresholds.map (fun t => (t, file_stem ++ ".fdr" ++ toString t ++ ".bed"))
  else []

/-- detect.py, `run`, footprint loop for one interval: iterate over the
opened footprint file handles and write the segment records for each. -/
def run_footprint_records (handles : List (ℚ × String)) (chrom : String)
    (start : ℤ) (fdr_col : List ℚ) : List (String × ℤ × ℤ) :=
  handles.flatMap fun p => write_footprints_for_interval chrom start fdr_col p.1

/-- Fraction of the entries of `xs` at least as extreme as `x` (window
statistics are p-value-like: smaller is more extreme). -/
def frac_at_least_extreme (xs : List ℚ) (x : ℚ) : ℚ :=
  ((xs.countP (fun y => decide (y ≤ x)) : ℕ) : ℚ) / ((xs.length : ℕ) : ℚ)

/-- Modelled from the spec: `footprint_tools.stats.fdr.emperical_fdr` is
outside the excerpted sources.  Per the design document, the raw FDR for an
observed window statistic is the fraction of null replicate statistics at
least as extreme, normalized against the fraction of observed statistics at
least as extreme. -/
def raw_fdr (null_stats : List (List ℚ)) (obs : List ℚ) (x : ℚ) : ℚ :=
  frac_at_least_extreme null_stats.flatten x / frac_at_least_extreme obs x

/-- Modelled from the spec: the isotonic adjustment of
`footprint_tools.stats.fdr.emperical_fdr`, enforcing monotonicity of the
raw ratio — each statistic receives the minimum raw ratio over all observed
statistics at most as extreme as it (itself included). -/
def emperical_fdr_at (null_stats : List (List ℚ)) (obs : List ℚ) (x : ℚ) : ℚ :=
  ((obs.filter (fun y => decide (x ≤ y))).map (raw_fdr null_stats obs)).foldl
    min (raw_fdr null_stats obs x)

/-- Modelled from the spec: `emperical_fdr(null_statistics, observed_statistics)`
returns one FDR value per observed statistic. -/
def emperical_fdr (null_stats : List (List ℚ)) (obs : List ℚ) : List ℚ :=
  obs.map (emperical_fdr_at null_stats obs)

/-- The per-run configuration stored by `deviation_stats.__init__`:
`self.fdr_shuffle_n = kwargs['fdr_shuffle_n']` and
`self.seed = kwargs['seed']` (detect.py `run` builds these from the CLI
arguments; its `seed` entry carries the source comment `not used...yet`). -/
structure devstats_cfg where
  fdr_shuffle_n : ℕ
  seed : Option ℕ
deriving DecidableEq

/-- Modelled from the spec: `dispersion_model.sample` is outside the
excerpted sources; it draws `n` synthetic null p-value vectors for the
expected counts, using a caller-supplied seed when one is passed and the
ambient random-generator state otherwise.  The concrete pseudo-random
stream is a fixed arithmetic hash of the effective source state, enough to
make distinct states observable. -/
def dm_sample_pvals (expv : List ℚ) (n : ℕ) (seed_arg : Option ℕ)
    (ambient_rng : ℕ) : List (List ℚ) :=
  (List.range n).map fun k =>
    (List.range expv.length).map fun i =>
      mkRat (((seed_arg.getD ambient_rng + 31 * k + 17 * i) % 97 : ℕ) : ℤ) 97

/-- detect.py, `deviation_stats.__getitem__`:
`_, pvals_null = self.dm.sample(exp, self.fdr_shuffle_n)` — the stored
`self.seed` is not passed — followed by the per-replicate window
combination `np.apply_along_axis(self.win_pval_fn, 0, pvals_null)`; the
window combiner `w` abstracts `windowing.stouffers_z`. -/
def devstats_null_win_pvals (cfg : devstats_cfg) (ambient_rng : ℕ)
    (w : List ℚ → List ℚ) (expv : List ℚ) : List (List ℚ) :=
  (dm_sample_pvals expv cfg.fdr_shuffle_n none ambient_rng).map w

/-- detect.py, `deviation_stats.__getitem__`:
`efdr = fdr.emperical_fdr(win_pvals_null, win_pvals)`. -/
def devstats_efdr (cfg : devstats_cfg) (ambient_rng : ℕ)
    (w : List ℚ → List ℚ) (expv obs_pvals : List ℚ) : List ℚ :=
  emperical_fdr (devstats_null_win_pvals cfg ambient_rng w expv) (w obs_pvals)

end FootprintTools

namespace FootprintTools

/-- C2: for per-strand observed and expected vectors of length `n ≥ 2`, the
combined vector is the element-wise sum of the plus-strand count at `i + 1`
and the minus-strand count at `i`, the identical rule is used for observed
and expected vectors at both call sites (detect.py and learn_dm.py), and the
combined vector has length `n - 1`. -/
theorem strand_combination_correct
    (v_plus v_minus : List ℝ) (n : ℕ) (hn : 2 ≤ n)
    (hp : v_plus.length = n) (hm : v_minus.length = n) :
    (strand_combine v_plus v_minus).length = n - 1
    ∧ (∀ i, i < n - 1 →
        (strand_combine v_plus v_minus).getD i 0
          = v_plus.getD (i + 1) 0 + v_minus.getD i 0)
    ∧ devstats_obs_combine v_plus v_minus = strand_combine v_plus v_minus
    ∧ devstats_exp_combine v_plus v_minus = strand_combine v_plus v_minus
    ∧ learn_dm_obs_combine v_plus v_minus = strand_combine v_plus v_minus
    ∧ learn_dm_exp_combine v_plus v_minus = strand_combine v_plus v_minus := by
  refine ⟨?_, ?_, rfl, rfl, rfl, rfl⟩
  · simp [strand_combine, hp, hm]
  · intro i hi
    have hp1 : i + 1 < v_plus.length := by omega
    have hm1 : i < v_minus.length := by omega
    have hlen : (strand_combine v_plus v_minus).length = n - 1 := by
      simp [strand_combine, hp, hm]
    have hi' : i < (strand_combine v_plus v_minus).length := by omega
    have hdp : i < (v_plus.drop 1).length := by simp [hp]; omega
    have hdm : i < v_minus.dropLast.length := by simp [hm]; omega
    rw [List.getD_eq_getElem _ _ hi', List.getD_eq_getElem _ _ hp1,
      List.getD_eq_getElem _ _ hm1]
    simp only [strand_combine]
    rw [List.getElem_zipWith]
    congr 1
    · rw [List.getElem_drop]
      congr 1
      omega
    · rw [List.getElem_dropLast]

/-- C2 witness: the combination rule evaluated at a concrete pair of
length-2 strand vectors. -/
theorem strand_combination_correct_witness :
    ([(3 : ℝ), 5].length = 2)
    ∧ ((strand_combine [(3 : ℝ), 5] [2, 7]).length = 2 - 1
      ∧ (∀ i, i < 2 - 1 →
          (strand_combine [(3 : ℝ), 5] [2, 7]).getD i 0
            = [(3 : ℝ), 5].getD (i + 1) 0 + [(2 : ℝ), 7].getD i 0)
      ∧ devstats_obs_combine [(3 : ℝ), 5] [2, 7] = strand_combine [(3 : ℝ), 5] [2, 7]
      ∧ devstats_exp_combine [(3 : ℝ), 5] [2, 7] = strand_combine [(3 : ℝ), 5] [2, 7]
      ∧ learn_dm_obs_combine [(3 : ℝ), 5] [2, 7] = strand_combine [(3 : ℝ), 5] [2, 7]
      ∧ learn_dm_exp_combine [(3 : ℝ), 5] [2, 7] = strand_combine [(3 : ℝ), 5] [2, 7]) :=
  ⟨rfl, strand_combination_correct [3, 5] [2, 7] 2 (by decide) rfl rfl⟩

theorem column_stack5_zip (a : List ℝ) (b : List ℝ) (n : ℕ)
    (ha : a.length = n) (hb : b.length = n) :
    column_stack5 a b (List.replicate n 0) (List.replicate n 0) (List.replicate n 1)
      = List.zipWith (fun e o => [e, o, 0, 0, 1]) a b := by
  induction a generalizing b n with
  | nil =>
    simp only [List.length_nil] at ha
    subst ha
    cases b <;> rfl
  | cons x xs ih =>
    simp only [List.length_cons] at ha
    subst ha
    cases b with
    | nil => simp at hb
    | cons y ys =>
      simp only [List.length_cons, Nat.add_right_cancel_iff] at hb
      simp only [List.replicate_succ, column_stack5, List.zipWith_cons_cons]
      exact congrArg _ (ih ys xs.length rfl hb)

theorem column_stack5_length (a b c d e : List ℝ) (n : ℕ)
    (ha : a.length = n) (hb : b.length = n) (hc : c.length = n)
    (hd : d.length = n) (he : e.length = n) :
    (column_stack5 a b c d e).length = n := by
  induction a generalizing b c d e n with
  | nil =>
    simp only [List.length_nil] at ha
    subst ha
    cases b <;> cases c <;> cases d <;> cases e <;> rfl
  | cons x xs ih =>
    simp only [List.length_cons] at ha
    subst ha
    cases b with
    | nil => simp at hb
    | cons y ys =>
      cases c with
      | nil => simp at hc
      | cons z zs =>
        cases d with
        | nil => simp at hd
        | cons w ws =>
          cases e with
          | nil => simp at he
          | cons v vs =>
            simp only [List.length_cons, Nat.add_right_cancel_iff] at hb hc hd he
            simp only [column_stack5, List.length_cons]
            exact congrArg Nat.succ (ih ys zs ws vs xs.length rfl hb hc hd he)

theorem column_stack5_getD (a b c d e : List ℝ) (n i : ℕ)
    (ha : a.length = n) (hb : b.length = n) (hc : c.length = n)
    (hd : d.length = n) (he : e.length = n) (hi : i < n) :
    (column_stack5 a b c d e).getD i []
      = [a.getD i 0, b.getD i 0, c.getD i 0, d.getD i 0, e.getD i 0] := by
  induction a generalizing b c d e n i with
  | nil =>
    simp only [List.length_nil] at ha
    omega
  | cons x xs ih =>
    simp only [List.length_cons] at ha
    subst ha
    cases b with
    | nil => simp at hb
    | cons y ys =>
      cases c with
      | nil => simp at hc
      | cons z zs =>
        cases d with
        | nil => simp at hd
        | cons w ws =>
          cases e with
          | nil => simp at he
          | cons v vs =>
            simp only [List.length_cons, Nat.add_right_cancel_iff] at hb hc hd he
            cases i with
            | zero => rfl
            | succ j =>
              simp only [column_stack5, List.getD_cons_succ]
              exact ih ys zs ws vs xs.length j rfl hb hc hd he (by omega)

theorem map_getD_lt {α β : Type} (f : α → β) (l : List α) (i : ℕ)
    (h : i < l.length) (d : β) (d2 : α) : (l.map f).getD i d = f (l.getD i d2) := by
  rw [List.getD_eq_getElem _ _ (by simpa using h), List.getD_eq_getElem _ _ h,
    List.getElem_map]

theorem neglog_one : neglog 1 = 0 := by
  simp [neglog]

/-- C1: when the dispersion model is present and computing the p-values,
window p-values, null resampling or empirical FDR raises an exception,
`deviation_stats.__getitem__` does not propagate it: it returns normally
with a warning naming the failing interval coordinates, and every position
of the returned stats matrix carries the neutral values
`-log(p) = -log(1) = 0`, `-log(window_p) = 0` and `fdr = 1`. -/
theorem deviation_stats_error_fallback
    (interval : gt_genomic_interval) (expc obsc : List ℝ) (n : ℕ) (err : String)
    (hexp : expc.length = n) (hobs : obsc.length = n) :
    devstats_stat_block n expc obsc interval (Except.error err)
      = ([devstats_warning interval],
          List.zipWith (fun e o => [e, o, 0, 0, 1]) expc obsc)
    ∧ devstats_warning interval
        = "Error computing stats for " ++ interval.chrom ++ ":"
            ++ toString interval.start ++ "-" ++ toString interval.stop
    ∧ neglog 1 = 0 := by
  refine ⟨?_, rfl, neglog_one⟩
  show ([devstats_warning interval],
      column_stack5 expc obsc ((List.replicate n (1 : ℝ)).map neglog)
        ((List.replicate n (1 : ℝ)).map neglog) (List.replicate n (1 : ℝ))) = _
  rw [List.map_replicate, neglog_one]
  exact congrArg _ (column_stack5_zip expc obsc n hexp hobs)

/-- C1 witness: a concrete failing interval with a one-position window. -/
theorem deviation_stats_error_fallback_witness :
    ([(2 : ℝ)].length = 1) ∧ ([(3 : ℝ)].length = 1)
    ∧ (devstats_stat_block 1 [(2 : ℝ)] [(3 : ℝ)]
          (gt_genomic_interval.mk "chr1" 10 12) (Except.error "zero window")
        = ([devstats_warning (gt_genomic_interval.mk "chr1" 10 12)],
            List.zipWith (fun e o => [e, o, 0, 0, 1]) [(2 : ℝ)] [(3 : ℝ)])
      ∧ devstats_warning (gt_genomic_interval.mk "chr1" 10 12)
          = "Error computing stats for " ++ "chr1" ++ ":"
              ++ toString (10 : ℤ) ++ "-" ++ toString (12 : ℤ)
      ∧ neglog 1 = 0) :=
  ⟨rfl, rfl,
    deviation_stats_error_fallback (gt_genomic_interval.mk "chr1" 10 12)
      [2] [3] 1 "zero window" rfl rfl⟩

/-- C3: for every interval, the per-nucleotide output contains one
tab-delimited record per stats row `i`, with fields in the order
`chrom, start+i, start+i+1, expected, observed, -log(p), -log(window_p),
fdr` (expected before observed), records appearing in ascending position
order within the interval, and the stream for a sequence of intervals being
the in-order concatenation of the per-interval streams. -/
theorem per_nucleotide_output_format
    (fmt : ℝ → String) (interval : gt_genomic_interval)
    (expc obsc pvals winpvals efdr : List ℝ) (n : ℕ)
    (h1 : expc.length = n) (h2 : obsc.length = n) (h3 : pvals.length = n)
    (h4 : winpvals.length = n) (h5 : efdr.length = n)
    (xs ys : List (gt_genomic_interval × List (List ℝ))) :
    write_stats_to_output fmt interval
        (column_stack5 expc obsc (pvals.map neglog) (winpvals.map neglog) efdr)
      = (List.range n).map (fun (i : ℕ) =>
          interval.chrom ++ "\t" ++ toString (interval.start + (i : ℤ)) ++ "\t"
            ++ toString (interval.start + (i : ℤ) + 1) ++ "\t"
            ++ tab_join [fmt (expc.getD i 0), fmt (obsc.getD i 0),
                fmt (neglog (pvals.getD i 0)), fmt (neglog (winpvals.getD i 0)),
                fmt (efdr.getD i 0)])
    ∧ (∀ s1 s2 s3 s4 s5 : String,
        tab_join [s1, s2, s3, s4, s5]
          = s1 ++ "\t" ++ (s2 ++ "\t" ++ (s3 ++ "\t" ++ (s4 ++ "\t" ++ s5))))
    ∧ write_all_stats fmt (xs ++ ys)
        = write_all_stats fmt xs ++ write_all_stats fmt ys := by
  have hplen : (pvals.map neglog).length = n := by simpa using h3
  have hwlen : (winpvals.map neglog).length = n := by simpa using h4
  have hlen : (column_stack5 expc obsc (pvals.map neglog) (winpvals.map neglog)
      efdr).length = n :=
    column_stack5_length _ _ _ _ _ n h1 h2 hplen hwlen h5
  refine ⟨?_, ?_, ?_⟩
  · rw [write_stats_to_output, hlen]
    refine List.map_congr_left ?_
    intro i hi
    rw [List.mem_range] at hi
    rw [column_stack5_getD expc obsc (pvals.map neglog) (winpvals.map neglog)
      efdr n i h1 h2 hplen hwlen h5 hi]
    rw [map_getD_lt neglog pvals i (by omega) 0 0,
      map_getD_lt neglog winpvals i (by omega) 0 0]
    rfl
  · intro s1 s2 s3 s4 s5
    simp [tab_join, String.append_assoc]
  · rw [write_all_stats, write_all_stats, write_all_stats, List.flatMap_append]

/-- C3 witness: a concrete one-position interval with a concrete formatter. -/
theorem per_nucleotide_output_format_witness :
    ([(2 : ℝ)].length = 1)
    ∧ (write_stats_to_output (fun r => if r = 1 then "one" else "val")
          (gt_genomic_interval.mk "chr2" 5 7)
          (column_stack5 [(2 : ℝ)] [(3 : ℝ)] ([(1 : ℝ)].map neglog)
            ([(1 : ℝ)].map neglog) [(1 : ℝ)])
        = (List.range 1).map (fun (i : ℕ) =>
            "chr2" ++ "\t" ++ toString ((5 : ℤ) + (i : ℤ)) ++ "\t"
              ++ toString ((5 : ℤ) + (i : ℤ) + 1) ++ "\t"
              ++ tab_join [(fun r => if r = (1 : ℝ) then "one" else "val")
                    ([(2 : ℝ)].getD i 0),
                  (fun r => if r = (1 : ℝ) then "one" else "val")
                    ([(3 : ℝ)].getD i 0),
                  (fun r => if r = (1 : ℝ) then "one" else "val")
                    (neglog ([(1 : ℝ)].getD i 0)),
                  (fun r => if r = (1 : ℝ) then "one" else "val")
                    (neglog ([(1 : ℝ)].getD i 0)),
                  (fun r => if r = (1 : ℝ) then "one" else "val")
                    ([(1 : ℝ)].getD i 0)])
      ∧ (∀ s1 s2 s3 s4 s5 : String,
          tab_join [s1, s2, s3, s4, s5]
            = s1 ++ "\t" ++ (s2 ++ "\t" ++ (s3 ++ "\t" ++ (s4 ++ "\t" ++ s5))))
      ∧ write_all_stats (fun r => if r = 1 then "one" else "val") ([] ++ [])
          = write_all_stats (fun r => if r = 1 then "one" else "val") []
            ++ write_all_stats (fun r => if r = 1 then "one" else "val") []) :=
  ⟨rfl,
    per_nucleotide_output_format (fun r => if r = 1 then "one" else "val")
      (gt_genomic_interval.mk "chr2" 5 7) [2] [3] [1] [1] [1] 1
      rfl rfl rfl rfl rfl [] []⟩

/-- C5: the `remove_qcfail` value handed to the counts reader is the bitwise
complement `~keep_qcfail`, equal to `-2` when `keep_qcfail` is true and `-1`
when it is false, hence a truthy (nonzero) integer either way, so QC-failed
reads are removed from the filtered read list for both settings. -/
theorem remove_qcfail_always_truthy :
    detect_remove_qcfail true = -2
    ∧ detect_remove_qcfail false = -1
    ∧ (∀ b, detect_remove_qcfail b = py_invert (py_bool_to_int b))
    ∧ (∀ b, learn_dm_remove_qcfail b = detect_remove_qcfail b)
    ∧ (∀ b, detect_remove_qcfail b ≠ 0)
    ∧ (∀ b (reads : List sam_read),
        (bamfile_filter_reads (detect_remove_qcfail b) reads).all
          (fun r => !r.qcfail) = true) := by
  refine ⟨rfl, rfl, fun b => rfl, fun b => rfl, ?_, ?_⟩
  · intro b
    cases b <;> decide
  · intro b reads
    have hb : detect_remove_qcfail b ≠ 0 := by cases b <;> decide
    rw [bamfile_filter_reads, if_pos hb, List.all_eq_true]
    intro r hr
    exact (List.mem_filter.mp hr).2

theorem iterate_fixed_of_idem {α : Type} (f : α → α) (x : α)
    (h : f (f x) = f x) : ∀ j, f^[j] (f x) = f x := by
  intro j
  induction j with
  | zero => rfl
  | succ m ihm => rw [Function.iterate_succ_apply, h, ihm]

/-- C6 counterexample: the claim asserts that for `profile_loader` too, the
first `__getitem__` call initializes the external resource handles,
including the sequence reader; but `profile_loader.__getitem__` opens only
its counts reader, and its `fasta_reader` field is still `None` after the
first call. -/
theorem lazy_handles_counterexample :
    (profile_loader_getitem profile_loader_init).fasta_reader = none
    ∧ (profile_loader_getitem profile_loader_init).bam_reader = some 1 := by
  constructor <;> rfl

/-- C6 (amended): every handle field of `deviation_stats`,
`expected_counts` and `profile_loader` is `None` after construction and
nothing is opened before the first `__getitem__` call; the first call
initializes exactly once every handle that the dataset's `__getitem__`
uses (all three for `deviation_stats` and `expected_counts`, only the
counts reader for `profile_loader`, whose `fasta_reader` stays `None`);
and any `k ≥ 1` calls leave the state identical to the state after the
first call, so the open handles are reused and never reopened. -/
theorem lazy_handle_initialization (k : ℕ) (hk : 1 ≤ k) :
    deviation_stats_init
        = deviation_stats_handles.mk none none none
    ∧ expected_counts_init = expected_counts_handles.mk none none none
    ∧ profile_loader_init = profile_loader_handles.mk none none
    ∧ deviation_stats_getitem deviation_stats_init
        = deviation_stats_handles.mk (some 1) (some 1) (some 1)
    ∧ expected_counts_getitem expected_counts_init
        = expected_counts_handles.mk (some 1) (some 1) (some 1)
    ∧ profile_loader_getitem profile_loader_init
        = profile_loader_handles.mk (some 1) none
    ∧ deviation_stats_getitem^[k] deviation_stats_init
        = deviation_stats_getitem deviation_stats_init
    ∧ expected_counts_getitem^[k] expected_counts_init
        = expected_counts_getitem expected_counts_init
    ∧ profile_loader_getitem^[k] profile_loader_init
        = profile_loader_getitem profile_loader_init := by
  obtain ⟨j, rfl⟩ : ∃ j, k = j + 1 := ⟨k - 1, by omega⟩
  refine ⟨rfl, rfl, rfl, rfl, rfl, rfl, ?_, ?_, ?_⟩
  · rw [Function.iterate_succ_apply]
    exact iterate_fixed_of_idem _ _ (by rfl) j
  · rw [Function.iterate_succ_apply]
    exact iterate_fixed_of_idem _ _ (by rfl) j
  · rw [Function.iterate_succ_apply]
    exact iterate_fixed_of_idem _ _ (by rfl) j

/-- C6 witness: the amended statement instantiated at `k = 3` calls. -/
theorem lazy_handle_initialization_witness :
    (1 ≤ 3)
    ∧ (deviation_stats_getitem^[3] deviation_stats_init
          = deviation_stats_getitem deviation_stats_init
      ∧ profile_loader_getitem^[3] profile_loader_init
          = profile_loader_getitem profile_loader_init) :=
  ⟨by decide,
    (lazy_handle_initialization 3 (by decide)).2.2.2.2.2.2.1,
    (lazy_handle_initialization 3 (by decide)).2.2.2.2.2.2.2.2⟩

theorem mk_genomic_interval_invariant (c : String) (s e : ℤ)
    (nm : Option String) (sc : Option ℚ) (st : Option String)
    (gi : ft_genomic_interval)
    (h : mk_genomic_interval c s e nm sc st = some gi) :
    gi.start < gi.stop := by
  unfold mk_genomic_interval at h
  split at h
  · cases h
    assumption
  · cases h

/-- C9: every GenomicInterval produced by the bed file line parsers
(`bed3_iterator`, `bed5_iterator`, `bed6_iterator`) on an accepted input
line satisfies the invariant `start < end`, for arbitrary integer and
float field parsers. -/
theorem bed_iterator_interval_invariant
    (int_parse : String → Option ℤ) (float_parse : String → Option ℚ)
    (line : String) (gi : ft_genomic_interval) :
    (bed3_line int_parse line = some gi → gi.start < gi.stop)
    ∧ (bed5_line int_parse float_parse line = some gi → gi.start < gi.stop)
    ∧ (bed6_line int_parse float_parse line = some gi → gi.start < gi.stop) := by
  refine ⟨?_, ?_, ?_⟩
  · intro h
    unfold bed3_line at h
    split at h
    · split at h
      · exact mk_genomic_interval_invariant _ _ _ _ _ _ _ h
      · cases h
    · cases h
  · intro h
    unfold bed5_line at h
    split at h
    · split at h
      · exact mk_genomic_interval_invariant _ _ _ _ _ _ _ h
      · cases h
    · cases h
  · intro h
    unfold bed6_line at h
    split at h
    · split at h
      · exact mk_genomic_interval_invariant _ _ _ _ _ _ _ h
      · cases h
    · cases h

/-- C9 witness: a concrete accepted six-field BED line, parsed by the three
iterators with concrete integer and float field parsers. -/
theorem bed_iterator_interval_invariant_witness :
    (ft_genomic_interval.mk "chr1" 100 200 none none none).start
      < (ft_genomic_interval.mk "chr1" 100 200 none none none).stop
    ∧ (ft_genomic_interval.mk "chr1" 100 200 (some "nm") (some 2) none).start
      < (ft_genomic_interval.mk "chr1" 100 200 (some "nm") (some 2) none).stop
    ∧ (ft_genomic_interval.mk "chr1" 100 200 (some "nm") (some 2)
          (some "+")).start
      < (ft_genomic_interval.mk "chr1" 100 200 (some "nm") (some 2)
          (some "+")).stop :=
  ⟨(bed_iterator_interval_invariant
      (fun t => if t = "100" then some 100 else if t = "200" then some 200 else none)
      (fun _ => some 2) "chr1 100 200 nm 2 +"
      (ft_genomic_interval.mk "chr1" 100 200 none none none)).1 (by decide),
    (bed_iterator_interval_invariant
      (fun t => if t = "100" then some 100 else if t = "200" then some 200 else none)
      (fun _ => some 2) "chr1 100 200 nm 2 +"
      (ft_genomic_interval.mk "chr1" 100 200 (some "nm") (some 2) none)).2.1
      (by decide),
    (bed_iterator_interval_invariant
      (fun t => if t = "100" then some 100 else if t = "200" then some 200 else none)
      (fun _ => some 2) "chr1 100 200 nm 2 +"
      (ft_genomic_interval.mk "chr1" 100 200 (some "nm") (some 2)
        (some "+"))).2.2 (by decide)⟩

theorem column_stack2_zip (a : List ℝ) (b : List ℝ) (hab : a.length = b.length) :
    column_stack2 a b = List.zipWith (fun e o => [e, o]) a b := by
  induction a generalizing b with
  | nil => cases b <;> rfl
  | cons x xs ih =>
    cases b with
    | nil => simp at hab
    | cons y ys =>
      simp only [List.length_cons, Nat.add_right_cancel_iff] at hab
      simp only [column_stack2, List.zipWith_cons_cons]
      exact congrArg _ (ih ys hab)

/-- C10: with no dispersion model (`dm = None`), the per-interval stats
matrix stacks exactly the two columns `(expected, observed)` — every row is
the two-entry list `[exp_i, obs_i]` — and `run` clears the requested
footprint thresholds to `[]`, so no footprint file handles are opened and
no footprint records are written. -/
theorem no_dispersion_model_two_columns {α : Type}
    (expc obsc pvals winpvals efdr : List ℝ)
    (hab : expc.length = obsc.length)
    (requested : List ℚ) (file_stem chrom : String) (start : ℤ)
    (fdr_col : List ℚ) :
    devstats_stats_matrix (none : Option α) expc obsc pvals winpvals efdr
        = column_stack2 expc obsc
    ∧ column_stack2 expc obsc = List.zipWith (fun e o => [e, o]) expc obsc
    ∧ (∀ row ∈ column_stack2 expc obsc, row.length = 2)
    ∧ run_effective_write_footprints none requested = []
    ∧ run_output_bed_filehandles file_stem
        (run_effective_write_footprints none requested) = []
    ∧ run_footprint_records
        (run_output_bed_filehandles file_stem
          (run_effective_write_footprints none requested))
        chrom start fdr_col = [] := by
  refine ⟨rfl, column_stack2_zip expc obsc hab, ?_, rfl, rfl, rfl⟩
  intro row hrow
  rw [column_stack2_zip expc obsc hab] at hrow
  clear hab
  induction expc generalizing obsc with
  | nil => simp at hrow
  | cons x xs ih =>
    cases obsc with
    | nil => simp at hrow
    | cons y ys =>
      rw [List.zipWith_cons_cons, List.mem_cons] at hrow
      rcases hrow with h1 | h2
      · subst h1
        rfl
      · exact ih ys h2

/-- C10 witness: the no-dispersion-model path at a concrete configuration. -/
theorem no_dispersion_model_two_columns_witness :
    ([(2 : ℝ), 4].length = [(3 : ℝ), 5].length)
    ∧ (devstats_stats_matrix (none : Option Unit) [(2 : ℝ), 4] [(3 : ℝ), 5]
          [] [] [] = column_stack2 [(2 : ℝ), 4] [(3 : ℝ), 5]
      ∧ run_effective_write_footprints none [(1 : ℚ)/100, 1/20] = []
      ∧ run_output_bed_filehandles "out"
          (run_effective_write_footprints none [(1 : ℚ)/100, 1/20]) = []
      ∧ run_footprint_records
          (run_output_bed_filehandles "out"
            (run_effective_write_footprints none [(1 : ℚ)/100, 1/20]))
          "chr1" 0 [0, 0, 0] = []) := by
  have h := @no_dispersion_model_two_columns Unit [(2 : ℝ), 4] [(3 : ℝ), 5]
    [] [] [] rfl [(1 : ℚ)/100, 1/20] "out" "chr1" 0 [0, 0, 0]
  exact ⟨rfl, h.1, h.2.2.2.1, h.2.2.2.2.1, h.2.2.2.2.2⟩

theorem foldl_min_le_init (l : List ℚ) (a : ℚ) : l.foldl min a ≤ a := by
  induction l generalizing a with
  | nil => exact le_refl a
  | cons b t ih =>
    rw [List.foldl_cons]
    exact le_trans (ih (min a b)) (min_le_left a b)

theorem foldl_min_le_of_mem (l : List ℚ) : ∀ (a x : ℚ), x ∈ l → l.foldl min a ≤ x := by
  induction l with
  | nil =>
    intro a x hx
    simp at hx
  | cons b t ih =>
    intro a x hx
    rw [List.foldl_cons]
    rcases List.mem_cons.mp hx with rfl | hxt
    · exact le_trans (foldl_min_le_init t (min a x)) (min_le_right a x)
    · exact ih (min a b) x hxt

theorem le_foldl_min (l : List ℚ) (a c : ℚ) (ha : c ≤ a)
    (hl : ∀ x ∈ l, c ≤ x) : c ≤ l.foldl min a := by
  induction l generalizing a with
  | nil => exact ha
  | cons b t ih =>
    rw [List.foldl_cons]
    exact ih (min a b) (le_min ha (hl b (List.mem_cons_self b t)))
      (fun x hx => hl x (List.mem_cons_of_mem b hx))

theorem emperical_fdr_at_mono (null_stats : List (List ℚ)) (obs : List ℚ)
    (x₁ x₂ : ℚ) (h12 : x₁ ≤ x₂) (h2 : x₂ ∈ obs) :
    emperical_fdr_at null_stats obs x₁ ≤ emperical_fdr_at null_stats obs x₂ := by
  have hx2_mem : raw_fdr null_stats obs x₂
      ∈ (obs.filter (fun y => decide (x₁ ≤ y))).map (raw_fdr null_stats obs) :=
    List.mem_map_of_mem _ (List.mem_filter.mpr ⟨h2, by simpa using h12⟩)
  apply le_foldl_min
  · exact foldl_min_le_of_mem _ _ _ hx2_mem
  · intro z hz
    obtain ⟨y, hy, rfl⟩ := List.mem_map.mp hz
    obtain ⟨hyobs, hy2⟩ := List.mem_filter.mp hy
    have hy2q : x₂ ≤ y := by simpa using hy2
    exact foldl_min_le_of_mem _ _ _
      (List.mem_map_of_mem _
        (List.mem_filter.mpr ⟨hyobs, by simp; linarith⟩))

/-- C8: the empirical FDR values are monotonic with respect to statistic
extremity — statistics are p-value-like, so a strictly smaller (more
extreme) observed statistic never receives a larger FDR. -/
theorem emperical_fdr_monotonic
    (null_stats : List (List ℚ)) (obs : List ℚ) (i j : ℕ)
    (hi : i < obs.length) (hj : j < obs.length)
    (hij : obs.getD i 0 < obs.getD j 0) :
    (emperical_fdr null_stats obs).getD i 0
      ≤ (emperical_fdr null_stats obs).getD j 0 := by
  rw [show emperical_fdr null_stats obs = obs.map (emperical_fdr_at null_stats obs)
    from rfl, map_getD_lt _ obs i hi 0 0, map_getD_lt _ obs j hj 0 0]
  apply emperical_fdr_at_mono null_stats obs _ _ (le_of_lt hij)
  rw [List.getD_eq_getElem _ _ hj]
  exact List.getElem_mem hj

/-- C8 witness: a concrete two-statistic input where position 0 is strictly
more extreme than position 1. -/
theorem emperical_fdr_monotonic_witness :
    (0 < [(0 : ℚ), 1].length) ∧ (1 < [(0 : ℚ), 1].length)
    ∧ ([(0 : ℚ), 1].getD 0 0 < [(0 : ℚ), 1].getD 1 0)
    ∧ (emperical_fdr [[(0 : ℚ), 1]] [0, 1]).getD 0 0
        ≤ (emperical_fdr [[(0 : ℚ), 1]] [0, 1]).getD 1 0 :=
  ⟨by decide, by decide, by decide,
    emperical_fdr_monotonic [[(0 : ℚ), 1]] [0, 1] 0 1 (by decide) (by decide)
      (by decide)⟩

/-- C7 counterexample: two executions of the statistical block of
`deviation_stats.__getitem__` with the same supplied seed (42) but
different ambient random-generator states produce different resampled null
window p-values and different empirical FDR vectors, because the call site
passes no seed to `sample`; so the statistics are not deterministic given
the seed. -/
theorem seed_determinism_counterexample :
    devstats_null_win_pvals (devstats_cfg.mk 1 (some 42)) 0 id [0, 0]
      ≠ devstats_null_win_pvals (devstats_cfg.mk 1 (some 42)) 1 id [0, 0]
    ∧ devstats_efdr (devstats_cfg.mk 1 (some 42)) 0 id [0, 0] [0, 0]
      ≠ devstats_efdr (devstats_cfg.mk 1 (some 42)) 1 id [0, 0] [0, 0] := by
  constructor
  · decide
  · intro h
    simp only [devstats_efdr, devstats_null_win_pvals, dm_sample_pvals,
      emperical_fdr, emperical_fdr_at, raw_fdr, frac_at_least_extreme,
      List.range_succ, List.range_zero, List.nil_append, List.map_cons,
      List.map_nil, List.flatten, List.append_nil, id] at h
    norm_num [raw_fdr, frac_at_least_extreme, List.range_succ, List.range_zero,
      List.map_cons, List.map_nil, List.flatten, List.append_nil,
      List.nil_append, List.countP, List.countP.go, List.filter,
      List.foldl] at h

/-- C7 (amended): the caller-supplied seed is stored by
`deviation_stats.__init__` but never forwarded to the dispersion model's
`sample` call, so the resampled null window p-values and the empirical FDR
are functions of the ambient random-generator state alone: they are
identical across any two stored seeds, and determinism across runs is
guaranteed only when the ambient state coincides, not by the seed. -/
theorem seed_not_used_determinism (n : ℕ) (s1 s2 : Option ℕ) (rng : ℕ)
    (w : List ℚ → List ℚ) (expv obs_pvals : List ℚ) :
    devstats_null_win_pvals (devstats_cfg.mk n s1) rng w expv
        = devstats_null_win_pvals (devstats_cfg.mk n s2) rng w expv
    ∧ devstats_efdr (devstats_cfg.mk n s1) rng w expv obs_pvals
        = devstats_efdr (devstats_cfg.mk n s2) rng w expv obs_pvals :=
  ⟨rfl, rfl⟩

theorem is_maximal_run_iff (scores : List ℚ) (θ : ℚ) (s e : ℕ) :
    is_maximal_run scores θ s e = true
      ↔ s < e ∧ e ≤ scores.length
        ∧ (∀ i, s ≤ i → i < e → qualifies scores θ i = true)
        ∧ (s = 0 ∨ qualifies scores θ (s - 1) = false)
        ∧ (e = scores.length ∨ qualifies scores θ e = false) := by
  unfold is_maximal_run
  simp only [Bool.and_eq_true, Bool.or_eq_true, decide_eq_true_eq,
    List.all_eq_true, List.mem_range, Bool.not_eq_true']
  constructor
  · rintro ⟨⟨⟨⟨h1, h2⟩, h3⟩, h4⟩, h5⟩
    refine ⟨h1, h2, ?_, h4, h5⟩
    intro i his hie
    have hk := h3 (i - s) (by omega)
    rwa [show s + (i - s) = i by omega] at hk
  · rintro ⟨h1, h2, h3, h4, h5⟩
    exact ⟨⟨⟨⟨h1, h2⟩, fun k hk => h3 (s + k) (by omega) (by omega)⟩, h4⟩, h5⟩

theorem max_run_unique_e (scores : List ℚ) (θ : ℚ) (s e₁ e₂ : ℕ)
    (h1 : is_maximal_run scores θ s e₁ = true)
    (h2 : is_maximal_run scores θ s e₂ = true) : e₁ = e₂ := by
  rw [is_maximal_run_iff] at h1 h2
  obtain ⟨hs1, he1, hq1, _, hb1⟩ := h1
  obtain ⟨hs2, he2, hq2, _, hb2⟩ := h2
  by_contra hne
  rcases Nat.lt_or_ge e₁ e₂ with hlt | hge
  · have hq := hq2 e₁ (by omega) hlt
    rcases hb1 with h | h
    · omega
    · rw [hq] at h
      exact Bool.noConfusion h
  · have hlt2 : e₂ < e₁ := by omega
    have hq := hq1 e₂ (by omega) hlt2
    rcases hb2 with h | h
    · omega
    · rw [hq] at h
      exact Bool.noConfusion h

theorem max_run_disjoint (scores : List ℚ) (θ : ℚ) (s₁ e₁ s₂ e₂ : ℕ)
    (h1 : is_maximal_run scores θ s₁ e₁ = true)
    (h2 : is_maximal_run scores θ s₂ e₂ = true)
    (hs : s₁ < s₂) : e₁ ≤ s₂ := by
  rw [is_maximal_run_iff] at h1 h2
  obtain ⟨hlt1, hle1, hq1, _, _⟩ := h1
  obtain ⟨hlt2, hle2, _, hb2, _⟩ := h2
  by_contra hcon
  have hq := hq1 (s₂ - 1) (by omega) (by omega)
  rcases hb2 with h0 | hf
  · omega
  · rw [hq] at hf
    exact Bool.noConfusion hf

theorem segment_mem (scores : List ℚ) (θ : ℚ) (min_len : ℕ) (s e : ℕ) :
    (s, e) ∈ segment scores θ min_len
      ↔ is_maximal_run scores θ s e = true ∧ min_len ≤ e - s := by
  unfold segment
  rw [List.mem_flatMap]
  constructor
  · rintro ⟨u, hu, hmem⟩
    rw [List.mem_map] at hmem
    obtain ⟨v, hv, heq⟩ := hmem
    rw [Prod.mk.injEq] at heq
    obtain ⟨rfl, rfl⟩ := heq
    rw [List.mem_filter] at hv
    have hcond := hv.2
    simp only [Bool.and_eq_true, decide_eq_true_eq] at hcond
    exact hcond
  · rintro ⟨hmax, hlen⟩
    obtain ⟨hse, hel, _, _, _⟩ := (is_maximal_run_iff scores θ s e).mp hmax
    refine ⟨s, List.mem_range.mpr (by omega), ?_⟩
    rw [List.mem_map]
    refine ⟨e, ?_, rfl⟩
    rw [List.mem_filter]
    refine ⟨List.mem_range.mpr (by omega), ?_⟩
    simp only [Bool.and_eq_true, decide_eq_true_eq]
    exact ⟨hmax, hlen⟩

theorem pairwise_flatMap {α β : Type} {R : β → β → Prop} (l : List α)
    (f : α → List β) (h1 : ∀ a ∈ l, (f a).Pairwise R)
    (h2 : l.Pairwise (fun a b => ∀ x ∈ f a, ∀ y ∈ f b, R x y)) :
    (l.flatMap f).Pairwise R := by
  induction l with
  | nil => exact List.Pairwise.nil
  | cons a t ih =>
    rw [List.flatMap_cons, List.pairwise_append]
    rw [List.pairwise_cons] at h2
    refine ⟨h1 a (List.mem_cons_self a t),
      ih (fun b hb => h1 b (List.mem_cons_of_mem a hb)) h2.2, ?_⟩
    intro x hx y hy
    rw [List.mem_flatMap] at hy
    obtain ⟨b, hb, hyb⟩ := hy
    exact h2.1 b hb x hx y hyb

theorem length_filter_le_one (l : List ℕ) (hl : l.Nodup) (p : ℕ → Bool)
    (h : ∀ a b, p a = true → p b = true → a = b) : (l.filter p).length ≤ 1 := by
  induction l with
  | nil => simp
  | cons x t ih =>
    rw [List.nodup_cons] at hl
    by_cases hp : p x = true
    · rw [List.filter_cons_of_pos hp]
      have ht : t.filter p = [] := by
        rw [List.filter_eq_nil_iff]
        intro a ha hpa
        exact hl.1 (by rwa [h a x hpa hp] at ha)
      rw [ht]
      simp
    · rw [List.filter_cons_of_neg hp]
      exact ih hl.2

theorem pairwise_of_length_le_one {α : Type} {R : α → α → Prop}
    (l : List α) (h : l.length ≤ 1) : l.Pairwise R := by
  match l with
  | [] => exact List.Pairwise.nil
  | [x] => simp
  | x :: y :: t => simp at h

theorem segment_pairwise (scores : List ℚ) (θ : ℚ) (min_len : ℕ) :
    (segment scores θ min_len).Pairwise (fun p q => p.2 ≤ q.1) := by
  unfold segment
  apply pairwise_flatMap
  · intro s hs
    apply pairwise_of_length_le_one
    rw [List.length_map]
    apply length_filter_le_one _ (List.nodup_range _)
    intro a b ha hb
    simp only [Bool.and_eq_true, decide_eq_true_eq] at ha hb
    exact max_run_unique_e scores θ s a b ha.1 hb.1
  · refine List.Pairwise.imp_of_mem ?_ (List.pairwise_lt_range _)
    intro a b ha hb hab x hx y hy
    rw [List.mem_map] at hx hy
    obtain ⟨e₁, he₁, rfl⟩ := hx
    obtain ⟨e₂, he₂, rfl⟩ := hy
    rw [List.mem_filter] at he₁ he₂
    have hc₁ := he₁.2
    have hc₂ := he₂.2
    simp only [Bool.and_eq_true, decide_eq_true_eq] at hc₁ hc₂
    exact max_run_disjoint scores θ a e₁ b e₂ hc₁.1 hc₂.1 hab

theorem segment_nodup (scores : List ℚ) (θ : ℚ) (min_len : ℕ) :
    (segment scores θ min_len).Nodup := by
  have hp := segment_pairwise scores θ min_len
  refine List.Pairwise.imp_of_mem ?_ hp
  intro p q hpmem hqmem hpq heq
  subst heq
  have hmem : (p.1, p.2) ∈ segment scores θ min_len := hpmem
  obtain ⟨hmax, _⟩ := (segment_mem scores θ min_len p.1 p.2).mp hmem
  have hlt := ((is_maximal_run_iff scores θ p.1 p.2).mp hmax).1
  omega

/-- C4: for every FDR threshold `t` and interval, the footprint records are
exactly one per maximal contiguous run `[s, e)` of positions whose fdr
passes the threshold (`fdr ≤ t`, encoded as `1 - fdr ≥ 1 - t`) with run
length at least 3: membership in the segmentation output characterizes the
maximal qualifying runs of length ≥ 3 (so shorter runs produce no record),
the emitted pairs are half-open within bounds, duplicate-free, sorted and
non-overlapping, they exactly cover the qualifying positions, and each pair
is emitted as the record `(chrom, interval.start + s, interval.start + e)`. -/
theorem footprint_segmentation_correct
    (chrom : String) (start : ℤ) (fdr_col : List ℚ) (t : ℚ) :
    (∀ s e, (s, e) ∈ segment (fdr_col.map (fun x => 1 - x)) (1 - t) 3
        ↔ (is_maximal_run (fdr_col.map (fun x => 1 - x)) (1 - t) s e = true
            ∧ 3 ≤ e - s))
    ∧ (∀ i, i < fdr_col.length →
        (qualifies (fdr_col.map (fun x => 1 - x)) (1 - t) i = true
          ↔ fdr_col.getD i 0 ≤ t))
    ∧ (∀ p, p ∈ segment (fdr_col.map (fun x => 1 - x)) (1 - t) 3 →
        p.1 < p.2 ∧ p.2 ≤ fdr_col.length)
    ∧ (segment (fdr_col.map (fun x => 1 - x)) (1 - t) 3).Nodup
    ∧ (segment (fdr_col.map (fun x => 1 - x)) (1 - t) 3).Pairwise
        (fun p q => p.2 ≤ q.1)
    ∧ (∀ i, (∃ p ∈ segment (fdr_col.map (fun x => 1 - x)) (1 - t) 3,
          p.1 ≤ i ∧ i < p.2)
        ↔ (∃ s e,
            is_maximal_run (fdr_col.map (fun x => 1 - x)) (1 - t) s e = true
            ∧ 3 ≤ e - s ∧ s ≤ i ∧ i < e))
    ∧ write_footprints_for_interval chrom start fdr_col t
        = (segment (fdr_col.map (fun x => 1 - x)) (1 - t) 3).map
            (fun p => (chrom, start + (p.1 : ℤ), start + (p.2 : ℤ))) := by
  refine ⟨fun s e => segment_mem _ _ 3 s e, ?_, ?_, segment_nodup _ _ 3,
    segment_pairwise _ _ 3, ?_, rfl⟩
  · intro i hi
    unfold qualifies
    have hlen : i < (fdr_col.map (fun x => 1 - x)).length := by simpa using hi
    rw [dif_pos hlen, decide_eq_true_eq, List.get_eq_getElem,
      List.getElem_map, List.getD_eq_getElem _ _ hi]
    dsimp only
    constructor
    · intro h
      linarith
    · intro h
      linarith
  · intro p hp
    have hmem : (p.1, p.2) ∈ segment (fdr_col.map (fun x => 1 - x)) (1 - t) 3 :=
      hp
    obtain ⟨hmax, _⟩ := (segment_mem _ _ 3 p.1 p.2).mp hmem
    obtain ⟨hse, hel, _, _, _⟩ := (is_maximal_run_iff _ _ p.1 p.2).mp hmax
    exact ⟨hse, by simpa using hel⟩
  · intro i
    constructor
    · rintro ⟨p, hp, hi1, hi2⟩
      have hmem : (p.1, p.2) ∈ segment (fdr_col.map (fun x => 1 - x)) (1 - t) 3 :=
        hp
      obtain ⟨hmax, hlen⟩ := (segment_mem _ _ 3 p.1 p.2).mp hmem
      exact ⟨p.1, p.2, hmax, hlen, hi1, hi2⟩
    · rintro ⟨s, e, hmax, hlen, hi1, hi2⟩
      exact ⟨(s, e), (segment_mem _ _ 3 s e).mpr ⟨hmax, hlen⟩, hi1, hi2⟩

/-- C4 witness: the concrete fdr column `[0, 0, 0, 1]` at threshold `1/2` —
positions 0..2 pass, position 3 fails, and `(0, 3)` is an emitted run. -/
theorem footprint_segmentation_correct_witness :
    ((0, 3) ∈ segment ([(0 : ℚ), 0, 0, 1].map (fun x => 1 - x)) (1 - 1/2) 3)
    ∧ (qualifies ([(0 : ℚ), 0, 0, 1].map (fun x => 1 - x)) (1 - 1/2) 0 = true
        ↔ [(0 : ℚ), 0, 0, 1].getD 0 0 ≤ 1/2)
    ∧ (((0, 3) : ℕ × ℕ).1 < ((0, 3) : ℕ × ℕ).2
        ∧ ((0, 3) : ℕ × ℕ).2 ≤ [(0 : ℚ), 0, 0, 1].length) := by
  have hqual := (footprint_segmentation_correct "chr1" 0 [0, 0, 0, 1] (1/2)).2.1
  have hq3 : qualifies ([(0 : ℚ), 0, 0, 1].map (fun x => 1 - x)) (1 - 1/2) 3
      = false := by
    cases hq : qualifies ([(0 : ℚ), 0, 0, 1].map (fun x => 1 - x)) (1 - 1/2) 3
    · rfl
    · exact absurd ((hqual 3 (by norm_num)).mp hq) (by norm_num)
  have hmax : is_maximal_run ([(0 : ℚ), 0, 0, 1].map (fun x => 1 - x))
      (1 - 1/2) 0 3 = true := by
    refine (is_maximal_run_iff _ _ 0 3).mpr
      ⟨by norm_num, by simp, ?_, Or.inl rfl, Or.inr hq3⟩
    intro i his hie
    refine (hqual i (by simp only [List.length_cons, List.length_nil]; omega)).mpr ?_
    interval_cases i <;> norm_num
  have hmem : ((0 : ℕ), (3 : ℕ))
      ∈ segment ([(0 : ℚ), 0, 0, 1].map (fun x => 1 - x)) (1 - 1/2) 3 :=
    ((footprint_segmentation_correct "chr1" 0 [0, 0, 0, 1] (1/2)).1 0 3).mpr
      ⟨hmax, by norm_num⟩
  exact ⟨hmem, hqual 0 (by norm_num),
    (footprint_segmentation_correct "chr1" 0 [0, 0, 0, 1] (1/2)).2.2.1 (0, 3)
      hmem⟩

end FootprintTools
